import Mathlib

/-!
# Verification of the HouseMotion storage module (src/housemotion_store.c)

Shallow embedding of the storage housekeeping subsystem of HouseMotion.
All definitions are translated from `src/housemotion_store.c`; the few
definitions that instead follow the specification's words (used to compare
the code against the spec) carry a doc comment saying so.

Modelling conventions:
* `time_t` and `long long` values are modelled as `Int` (`time_t` is a
  signed integer type on the target platform).  Wall-clock values produced
  by `time(0)` are non-negative; theorems that need this carry an explicit
  hypothesis.  Where the metrics code indexes an array with
  `(now / 10) % 30` the time is taken as a `Nat`, which agrees with C's
  `/` and `%` on the non-negative range.
* C strings are Lean `String`s; `strstr` is modelled by an executable
  substring test on `List Char`.
* The recording directory tree is modelled as a finite tree of named
  entries (`FsEntry`); `readdir` enumerates the entries of a directory in
  list order, `stat` is assumed to succeed (the code skips entries whose
  `stat` fails, which only removes entries from the output).
* The JSON output buffer is modelled as unbounded: functions return the
  list of reported items rather than a byte string (truncation on a full
  buffer only ever drops a suffix of the reported items).
-/

/-- A `strncmp`-style test: does the first list of characters start the
second one?  Used to build the `strstr` model. -/
def listPre : List Char → List Char → Bool
  | [], _ => true
  | _ :: _, [] => false
  | a :: as, b :: bs => a = b && listPre as bs

/-- Model of C `strstr (hay, needle) != NULL`: the needle occurs
(contiguously) somewhere in the haystack.  In particular an empty needle
matches every haystack, exactly as `strstr` does. -/
def cStrstrB (needle : List Char) : List Char → Bool
  | [] => listPre needle []
  | h :: t => listPre needle (h :: t) || cStrstrB needle t

/-- `strstr`-style substring test on `String`s. -/
def cSubstr (needle hay : String) : Bool :=
  cStrstrB needle.toList hay.toList

/-- `struct HouseMotionEvent`: one slot of the recent-event ring
(`time_t timestamp; char id[32];`). -/
structure HouseMotionEvent where
  timestamp : Int
  id : String
deriving DecidableEq, Repr

instance : Inhabited HouseMotionEvent := ⟨⟨0, ""⟩⟩

/-- The mutable state of housemotion_store.c that the HTTP handlers touch:
`HouseMotionStorage` (`none` = NULL), `HouseMotionChanged`,
`HouseMotionRecentEvents[MOTION_EVENT_DEPTH]` and
`HouseMotionEventCursor`.  The statics are zero-initialized, see
`initialStore`. -/
structure StoreState where
  storage : Option String
  changed : Int
  events : List HouseMotionEvent
  cursor : Nat
deriving DecidableEq, Repr

/-- The zero-initialized statics: no storage directory, `HouseMotionChanged
= 0`, all 8 event slots hold timestamp 0 and the empty id, cursor 0. -/
def initialStore : StoreState :=
  ⟨none, 0, List.replicate 8 ⟨0, ""⟩, 0⟩

/-- `snprintf (id, 32, "%s", event)` keeps the first 31 characters of the
event id. -/
def truncId (s : String) : String :=
  ⟨s.toList.take 31⟩

/-- The `event` branch of `housemotion_store_event` (the
`/cctv/motion/event` handler): stores the event at the cursor slot,
advances the cursor with wrap at `MOTION_EVENT_DEPTH = 8`, and sets
`HouseMotionChanged` to `now`. -/
def housemotion_store_event (s : StoreState) (now : Int) (event : String) : StoreState :=
  { s with
    events := s.events.set s.cursor ⟨now, truncId event⟩
    cursor := if s.cursor + 1 ≥ 8 then 0 else s.cursor + 1
    changed := now }

/-- The loop body of `housemotion_store_matchevent`, iterating over a list
of slot indices: return the timestamp of the first slot whose id is a
`strstr` substring of `name`, else 0. -/
def matcheventIdx (events : List HouseMotionEvent) (name : String) : List Nat → Int
  | [] => 0
  | i :: rest =>
    if cSubstr (events.getD i default).id name then (events.getD i default).timestamp
    else matcheventIdx events name rest

/-- `housemotion_store_matchevent`: `for (i = MOTION_EVENT_DEPTH-1; i >= 0;
--i)` scans the slots by descending index 7,6,...,0 and returns the
timestamp of the first slot whose id is a substring of `name` (0 when no
slot matches). -/
def housemotion_store_matchevent (events : List HouseMotionEvent) (name : String) : Int :=
  matcheventIdx events name [7, 6, 5, 4, 3, 2, 1, 0]

/-- `housemotion_store_check`: lazily set `HouseMotionChanged` to `now`
when it is still 0, then return it scaled to milliseconds.  Returns the
value and the (possibly updated) state. -/
def housemotion_store_check (s : StoreState) (now : Int) : Int × StoreState :=
  let c := if s.changed = 0 then now else s.changed
  (c * 1000, { s with changed := c })

/-- `housemotion_store_location`: no effect when the directory is unchanged;
otherwise replace `HouseMotionStorage` and set `HouseMotionChanged` to
`now`. -/
def housemotion_store_location (s : StoreState) (now : Int) (dir : String) : StoreState :=
  match s.storage with
  | some existing =>
    if existing = dir then s
    else { s with storage := some dir, changed := now }
  | none => { s with storage := some dir, changed := now }

/-- `d_name[0] == '.'`: the entry name starts with a dot (the code skips
every such entry, including plain dotfiles). -/
def startsWithDot (name : String) : Bool :=
  match name.toList with
  | [] => false
  | c :: _ => c = '.'

/-- A directory entry as enumerated by `readdir`: either a regular file
(`DT_REG`, with its `st_mtime` and `st_size`) or a sub-directory
(`DT_DIR`). -/
inductive FsEntry where
  | file (name : String) (mtime : Int) (size : Int) : FsEntry
  | dir (name : String) (entries : List FsEntry) : FsEntry

/-- One element of the `recordings` JSON array emitted by
`housemotion_store_status_recurse`:
`[mtime, relativePath, size, stable]`. -/
structure RecordingEntry where
  mtime : Int
  rel : String
  size : Int
  stable : Bool
deriving DecidableEq, Repr

/-- The stability test of `housemotion_store_status_recurse` (lines
209-217): stable when the file is older than 60 seconds, or else when its
*name* (`p->d_name`) matches a recent event and the file has not changed
after that event's timestamp. -/
def housemotion_store_stable (events : List HouseMotionEvent) (now : Int)
    (name : String) (mtime : Int) : Bool :=
  if mtime < now - 60 then true
  else mtime ≤ housemotion_store_matchevent events name

/-- `housemotion_store_status_recurse`: walk a directory's entries in
`readdir` order, skipping every entry whose name starts with `'.'`,
reporting each regular file with its relative path (`rel` is the prefix
below `HouseMotionStorage`, `""` at the root) and recursing into
sub-directories in place. -/
def housemotion_store_status_recurse (events : List HouseMotionEvent) (now : Int)
    (rel : String) : List FsEntry → List RecordingEntry
  | [] => []
  | FsEntry.file name mtime size :: rest =>
    if startsWithDot name then
      housemotion_store_status_recurse events now rel rest
    else
      ⟨mtime, rel ++ name, size, housemotion_store_stable events now name mtime⟩ ::
        housemotion_store_status_recurse events now rel rest
  | FsEntry.dir name sub :: rest =>
    if startsWithDot name then
      housemotion_store_status_recurse events now rel rest
    else
      housemotion_store_status_recurse events now (rel ++ name ++ "/") sub ++
        housemotion_store_status_recurse events now rel rest

/-- `struct filetrack`: the oldest file found so far. -/
structure Filetrack where
  modified : Int
  path : String
deriving DecidableEq, Repr

/-- `housemotion_store_oldest`: walk the tree under `parent` (skipping
every entry whose name starts with `'.'`) and keep the file with the
strictly smallest modification time seen so far. -/
def housemotion_store_oldest (oldest : Filetrack) (parent : String) :
    List FsEntry → Filetrack
  | [] => oldest
  | FsEntry.file name mtime _ :: rest =>
    if startsWithDot name then housemotion_store_oldest oldest parent rest
    else
      housemotion_store_oldest
        (if mtime < oldest.modified then ⟨mtime, parent ++ "/" ++ name⟩ else oldest)
        parent rest
  | FsEntry.dir name sub :: rest =>
    if startsWithDot name then housemotion_store_oldest oldest parent rest
    else
      housemotion_store_oldest
        (housemotion_store_oldest oldest (parent ++ "/" ++ name) sub) parent rest

/-- `strrchr (path, '/')` followed by truncation: the characters before the
last `'/'` of the path (`none` when the path has no `'/'`). -/
def lastSlashCut : List Char → Option (List Char)
  | [] => none
  | c :: rest =>
    match lastSlashCut rest with
    | some tail => some (c :: tail)
    | none => if c = '/' then some [] else none

/-- String version of `lastSlashCut`: the parent directory whose removal
`housemotion_store_cleanup` attempts after deleting a file. -/
def lastSlashCutStr (path : String) : Option String :=
  (lastSlashCut path.toList).map fun cs => ⟨cs⟩

/-- `housemotion_store_cleanup`: seed the oldest-file walk with
`now + 60` and an empty path, walk the whole tree, and when a file older
than `now` was found, delete it (`unlink`) and attempt to remove its
parent directory (`rmdir`, any failure ignored - removal changes nothing
else, so the model just reports the attempted directory).  The result is
`some (deletedFile, rmdirTarget)` or `none` when nothing is deleted. -/
def housemotion_store_cleanup (now : Int) (root : String)
    (entries : List FsEntry) : Option (String × Option String) :=
  let oldest := housemotion_store_oldest ⟨now + 60, ""⟩ root entries
  if oldest.modified < now then some (oldest.path, lastSlashCutStr oldest.path)
  else none

/-- The files a walk of `housemotion_store.c` can see: every regular file
reachable without passing through an entry whose name starts with `'.'`,
as `(absolutePath, mtime)` pairs in traversal order. -/
def visibleFiles (parent : String) : List FsEntry → List (String × Int)
  | [] => []
  | FsEntry.file name mtime _ :: rest =>
    if startsWithDot name then visibleFiles parent rest
    else (parent ++ "/" ++ name, mtime) :: visibleFiles parent rest
  | FsEntry.dir name sub :: rest =>
    if startsWithDot name then visibleFiles parent rest
    else visibleFiles (parent ++ "/" ++ name) sub ++ visibleFiles parent rest

/-- All regular files of the tree, dot-entries included, as
`(absolutePath, mtime)` pairs.  Follows the spec's words "the single file
with the globally minimum modification time across the whole tree"; used
to compare the code's walk against the claim. -/
def allFiles (parent : String) : List FsEntry → List (String × Int)
  | [] => []
  | FsEntry.file name mtime _ :: rest =>
    (parent ++ "/" ++ name, mtime) :: allFiles parent rest
  | FsEntry.dir name sub :: rest =>
    allFiles (parent ++ "/" ++ name) sub ++ allFiles parent rest

/-- `struct HouseMotionMetrics`: one slot of the metrics ring
(`MOTION_METRICS_SPAN = 30` slots). -/
structure HouseMotionMetrics where
  timestamp : Int
  storage_available : Int
  memory_available : Int
deriving DecidableEq, Repr

instance : Inhabited HouseMotionMetrics := ⟨⟨0, 0, 0⟩⟩

/-- The loop of `housemotion_store_status_metrics`:
`for (i = start + 1; i != start; ++i)` with, inside the body,
`if (i >= 30) { i = 0; if (start == 0) break; }`, skipping slots whose
timestamp is 0.  The result is the list of slot indices whose sample is
emitted, in emission order.  `fuel` bounds the iteration count (30 covers
every reachable entry point). -/
def statusMetricsGo (slots : Nat → HouseMotionMetrics) (start : Nat) :
    Nat → Nat → List Nat
  | _, 0 => []
  | i, fuel + 1 =>
    if i = start then []
    else if 30 ≤ i ∧ start = 0 then []
    else if (slots (if 30 ≤ i then 0 else i)).timestamp = 0 then
      statusMetricsGo slots start ((if 30 ≤ i then 0 else i) + 1) fuel
    else
      (if 30 ≤ i then 0 else i) ::
        statusMetricsGo slots start ((if 30 ≤ i then 0 else i) + 1) fuel

/-- `housemotion_store_status_metrics`: `start = (time(0) / 10) % 30`, and
the loop starts at `start + 1`.  Returns the emitted slot indices (the
output buffer is modelled as unbounded; truncation could only drop a
suffix). -/
def housemotion_store_status_metrics (slots : Nat → HouseMotionMetrics)
    (now : Nat) : List Nat :=
  statusMetricsGo slots (now / 10 % 30) (now / 10 % 30 + 1) 30

/-- The `static` locals of the background path: `lastcheck` from
`housemotion_store_background`, and `LastStorageCheck` from
`housemotion_store_metrics`.  Note that the C code declares
`LastStorageCheck` (and compares against it) but never assigns it, so it
stays at its initial value 0 forever; the model reproduces this
faithfully. -/
structure BgState where
  lastcheck : Int
  lastStorageCheck : Int
deriving DecidableEq, Repr

/-- `housemotion_store_metrics` (decision structure): return without doing
anything when `HouseMotionStorage` is unset, when
`now < LastStorageCheck + 10`, or when `statvfs` fails; otherwise write
the metrics sample for slot `(now / 10) % 30` and, when
`HouseMotionMaxSpace > 0` and the used percentage reaches it, invoke
`housemotion_store_cleanup`.  The result is
`(state, sampled?, cleanupInvoked?)`; the state is returned unchanged
because the C function never updates `LastStorageCheck`. -/
def housemotion_store_metricsStep (st : BgState) (hasStorage : Bool)
    (now : Int) (statOk : Bool) (used : Int) (maxSpace : Int) :
    BgState × Bool × Bool :=
  if ¬ hasStorage then (st, false, false)
  else if now < st.lastStorageCheck + 10 then (st, false, false)
  else if ¬ statOk then (st, false, false)
  else (st, true, decide (0 < maxSpace) && decide (maxSpace ≤ used))

/-- `housemotion_store_background`: a no-op unless `now > lastcheck`;
otherwise record `lastcheck = now` and run `housemotion_store_metrics`. -/
def housemotion_store_background (st : BgState) (hasStorage : Bool)
    (now : Int) (statOk : Bool) (used : Int) (maxSpace : Int) :
    BgState × Bool × Bool :=
  if now ≤ st.lastcheck then (st, false, false)
  else housemotion_store_metricsStep { st with lastcheck := now }
    hasStorage now statOk used maxSpace

/-- One background-tick input: `(hasStorage, now, statOk, used)`. -/
abbrev TickInput := Bool × Int × Bool × Int

/-- Run a sequence of background ticks, collecting for each tick whether
`housemotion_store_cleanup` was invoked. -/
def housemotion_store_runTicks (st : BgState) (maxSpace : Int) :
    List TickInput → BgState × List Bool
  | [] => (st, [])
  | (hs, now, ok, used) :: rest =>
    let r := housemotion_store_background st hs now ok used maxSpace
    let tail := housemotion_store_runTicks r.1 maxSpace rest
    (tail.1, r.2.2 :: tail.2)

/-- Conversion of an out-of-range value to C `int`, as the target compilers
implement it: reduction modulo 2^32 into [-2^31, 2^31). -/
def cIntCast (x : Int) : Int :=
  (x + 2 ^ 31) % 2 ^ 32 - 2 ^ 31

/-- `housemotion_store_friendly`: the humanized size string.  The
arithmetic is transcribed with C's left-to-right precedence for `%`, `*`
and `/`; in particular the GB fraction is
`(((((value % 1024) * 1024) * 1024) / 1024) * 1024) * 100` exactly as
`(value % 1024*1024*1024) / 1024*1024*100` parses, and each `(int)` cast
is `cIntCast`. -/
def housemotion_store_friendly (value : Int) : String :=
  if 1024 * 1024 * 1024 ≤ value then
    toString (cIntCast (value / (1024 * 1024 * 1024))) ++ "." ++
      toString (cIntCast (value % 1024 * 1024 * 1024 / 1024 * 1024 * 100)) ++ "GB"
  else if 1024 * 1024 ≤ value then
    toString (cIntCast (value / (1024 * 1024))) ++ "." ++
      toString (cIntCast (value % 1024 * 1024 / (1024 * 100))) ++ "MB"
  else
    toString (cIntCast (value / 1024)) ++ "KB"

/-- The first fractional digit of `value / unit`, following the claim's
words "one decimal digit equal to the first fractional digit of the value
divided by the unit". -/
def firstFracDigit (value unit : Int) : Int :=
  value % unit * 10 / unit

/-- The operations that touch `HouseMotionChanged`, each tagged with the
value `time(0)` returns while it runs: an event notification
(`housemotion_store_event`), a storage relocation
(`housemotion_store_location`), and a check read
(`housemotion_store_check`, which mutates through its lazy
initialization). -/
inductive StoreOp where
  | evt (now : Int) (id : String) : StoreOp
  | loc (now : Int) (dir : String) : StoreOp
  | chk (now : Int) : StoreOp

/-- The wall-clock time at which an operation runs. -/
def StoreOp.time : StoreOp → Int
  | .evt t _ => t
  | .loc t _ => t
  | .chk t => t

/-- Apply one operation to the module state. -/
def housemotion_store_applyOp (s : StoreState) : StoreOp → StoreState
  | .evt t id => housemotion_store_event s t id
  | .loc t d => housemotion_store_location s t d
  | .chk t => (housemotion_store_check s t).2

/-- Run a sequence of operations. -/
def housemotion_store_runOps : StoreState → List StoreOp → StoreState
  | s, [] => s
  | s, op :: ops => housemotion_store_runOps (housemotion_store_applyOp s op) ops

/-- The times of an operation sequence are non-decreasing and start at or
after `t` (the real `time(0)` never goes backwards between calls). -/
inductive TimesOK : Int → List StoreOp → Prop
  | nil (t : Int) : TimesOK t []
  | cons (t : Int) (op : StoreOp) (ops : List StoreOp) :
      t ≤ op.time → TimesOK op.time ops → TimesOK t (op :: ops)

/-- Modelled from the spec: the external `echttp_option_match` helper of
the echttp library (not part of this repository) matches a
`-motion-clean=` style option by prefix and yields the text after the
`=`. -/
def echttpOptionMatch (reference arg : String) : Option String :=
  if listPre reference.toList arg.toList then
    some ⟨arg.toList.drop reference.toList.length⟩
  else none

/-- C `atoi`: skip leading spaces, accept an optional sign, then read the
longest leading run of digits (0 when there is none). -/
def catoiDigits : List Char → Int → Int
  | c :: rest, acc =>
    if c.isDigit then catoiDigits rest (acc * 10 + (c.toNat - '0'.toNat))
    else acc
  | [], acc => acc

/-- C `atoi` on a string. -/
def catoi (s : String) : Int :=
  let cs := s.toList.dropWhile (fun c => c = ' ' ∨ c = '\t')
  match cs with
  | '-' :: rest => - catoiDigits rest 0
  | '+' :: rest => catoiDigits rest 0
  | _ => catoiDigits cs 0

/-- The option-parsing loop of `housemotion_store_initialize`: scan the
arguments for `-motion-clean=`; when it matched, `HouseMotionMaxSpace`
becomes `atoi` of the (last matching) value, else it stays 0. -/
def housemotion_store_maxspace (args : List String) : Int :=
  let max := args.foldl
    (fun acc arg => (echttpOptionMatch "-motion-clean=" arg).getD acc) ""
  if max = "" then 0 else catoi max

/-- Follows the claim's words for `matchTime`: scan the 8 slots starting
from the most-recently-written one (the slot before the write cursor) and
proceed backward to the least-recently-written one, returning the
`recordedAt` of the first slot whose id is a substring of the name
(`none` when no slot matches).  Used to compare the code's
`housemotion_store_matchevent` against the claim. -/
def matcheventClaimed (s : StoreState) (name : String) : Option Int :=
  ((List.range 8).map fun k => (s.cursor + 7 - k) % 8).findSome? fun i =>
    if cSubstr (s.events.getD i default).id name then
      some (s.events.getD i default).timestamp
    else none

/-- The declarative form of what the code's scan does: first match in
descending slot-index order 7,...,0. -/
def matcheventDescending (events : List HouseMotionEvent) (name : String) : Option Int :=
  ([7, 6, 5, 4, 3, 2, 1, 0] : List Nat).findSome? fun i =>
    if cSubstr (events.getD i default).id name then
      some (events.getD i default).timestamp
    else none

example : cSubstr "" "anything" = true := by decide
example : cSubstr "EVT42" "EVT42-clip.mp4" = true := by decide
example : cSubstr "EVT42" "other.mp4" = false := by decide
example :
    housemotion_store_matchevent
      (housemotion_store_event initialStore 95 "EVT42").events "EVT42-clip.mp4" = 0 := by
  decide


/-- Apply a sequence of event notifications (each `(time, id)`) in order. -/
def recordSeq (s : StoreState) : List (Int × String) → StoreState
  | [] => s
  | (t, id) :: rest => recordSeq (housemotion_store_event s t id) rest



/-! ## Properties of the metrics serializer (claim C10) -/

/-- The serializer loop never emits the `start` slot. -/
theorem statusMetricsGo_not_start (slots : Nat → HouseMotionMetrics)
    (start : Nat) :
    ∀ fuel i, start ∉ statusMetricsGo slots start i fuel := by
  intro fuel
  induction fuel with
  | zero => intro i; simp [statusMetricsGo]
  | succ fuel ih =>
    intro i
    simp only [statusMetricsGo]
    by_cases h1 : i = start
    · simp [h1]
    · rw [if_neg h1]
      by_cases h2 : 30 ≤ i ∧ start = 0
      · simp [h2]
      · rw [if_neg h2]
        by_cases h4 : (slots (if 30 ≤ i then 0 else i)).timestamp = 0
        · rw [if_pos h4]
          exact ih _
        · rw [if_neg h4]
          intro hmem
          rcases List.mem_cons.mp hmem with h | h
          · by_cases h3 : 30 ≤ i
            · rw [if_pos h3] at h
              exact h2 ⟨h3, h⟩
            · rw [if_neg h3] at h
              exact h1 h.symm
          · exact ih _ h

/-- The serializer loop performs at most `(start + 30 - i) % 30` emissions
when entered at index `i ≤ 30`. -/
theorem statusMetricsGo_length (slots : Nat → HouseMotionMetrics)
    (start : Nat) (hs : start < 30) :
    ∀ fuel i, i ≤ 30 →
      (statusMetricsGo slots start i fuel).length ≤ (start + 30 - i) % 30 := by
  intro fuel
  induction fuel with
  | zero => intro i _; simp [statusMetricsGo]
  | succ fuel ih =>
    intro i hi
    simp only [statusMetricsGo]
    by_cases h1 : i = start
    · simp [h1]
    · rw [if_neg h1]
      by_cases h2 : 30 ≤ i ∧ start = 0
      · simp [h2]
      · rw [if_neg h2]
        by_cases h3 : 30 ≤ i
        · simp only [if_pos h3]
          have hrec := ih (0 + 1) (by omega)
          by_cases h4 : (slots 0).timestamp = 0
          · rw [if_pos h4]
            omega
          · rw [if_neg h4, List.length_cons]
            omega
        · simp only [if_neg h3]
          have hrec := ih (i + 1) (by omega)
          by_cases h4 : (slots i).timestamp = 0
          · rw [if_pos h4]
            omega
          · rw [if_neg h4, List.length_cons]
            omega

/-- Every index the serializer loop emits denotes a slot with a non-zero
timestamp, and is in range. -/
theorem statusMetricsGo_emitted (slots : Nat → HouseMotionMetrics)
    (start : Nat) :
    ∀ fuel i j, j ∈ statusMetricsGo slots start i fuel →
      (slots j).timestamp ≠ 0 ∧ j < 30 := by
  intro fuel
  induction fuel with
  | zero => intro i j h; simp [statusMetricsGo] at h
  | succ fuel ih =>
    intro i j hmem
    simp only [statusMetricsGo] at hmem
    by_cases h1 : i = start
    · simp [h1] at hmem
    · rw [if_neg h1] at hmem
      by_cases h2 : 30 ≤ i ∧ start = 0
      · simp [h2] at hmem
      · rw [if_neg h2] at hmem
        by_cases h4 : (slots (if 30 ≤ i then 0 else i)).timestamp = 0
        · rw [if_pos h4] at hmem
          exact ih _ _ hmem
        · rw [if_neg h4] at hmem
          rcases List.mem_cons.mp hmem with h | h
          · subst h
            exact ⟨h4, by split <;> omega⟩
          · exact ih _ _ h

/-- C10: the metrics serializer never emits the sample stored in the slot
indexed by the current time, `(now / 10) % 30`: its iteration begins at
the slot after that index and stops before returning to it, so at most 29
of the 30 slots are reported, and every slot whose timestamp is unset
(zero) is skipped. -/
theorem housemotion_store_status_metrics_skips_current
    (slots : Nat → HouseMotionMetrics) (now : Nat) :
    (now / 10 % 30) ∉ housemotion_store_status_metrics slots now ∧
    (housemotion_store_status_metrics slots now).length ≤ 29 ∧
    ∀ j ∈ housemotion_store_status_metrics slots now,
      (slots j).timestamp ≠ 0 ∧ j < 30 := by
  have hs : now / 10 % 30 < 30 := Nat.mod_lt _ (by omega)
  refine ⟨statusMetricsGo_not_start slots _ 30 _, ?_, ?_⟩
  · have := statusMetricsGo_length slots (now / 10 % 30) hs 30
      (now / 10 % 30 + 1) (by omega)
    have h29 : (now / 10 % 30 + 30 - (now / 10 % 30 + 1)) % 30 = 29 := by omega
    rw [h29] at this
    exact this
  · intro j hj
    exact statusMetricsGo_emitted slots _ 30 _ j hj

/-! ## The background tick and the 10-second throttle (claims C3, C6) -/

/-- C3 (evidence of the code bug): two consecutive background ticks one
second apart, with the storage 85% full and `-motion-clean=80`, both
perform the substantive quota/metrics work and both invoke the cleanup
(eviction) path, because `LastStorageCheck` is never updated and so the
`now < LastStorageCheck + 10` throttle compares against 0 forever.  The
claimed "at most one eviction per 10-second interval" is violated: two
evictions happen 1 second apart. -/
theorem housemotion_store_background_no_ten_second_throttle :
    housemotion_store_background ⟨0, 0⟩ true 100 true 85 80 =
      (⟨100, 0⟩, true, true) ∧
    housemotion_store_background ⟨100, 0⟩ true 101 true 85 80 =
      (⟨101, 0⟩, true, true) ∧
    (101 : Int) - 100 < 10 := by
  decide

/-- With `HouseMotionMaxSpace = 0` one background tick never invokes the
cleanup. -/
theorem housemotion_store_background_maxspace_zero (st : BgState)
    (hs : Bool) (now : Int) (ok : Bool) (used : Int) :
    (housemotion_store_background st hs now ok used 0).2.2 = false := by
  simp only [housemotion_store_background, housemotion_store_metricsStep]
  split_ifs <;> simp

/-- With `HouseMotionMaxSpace = 0` no tick of any sequence invokes the
cleanup. -/
theorem housemotion_store_runTicks_maxspace_zero (ticks : List TickInput) :
    ∀ st : BgState,
      ∀ flag ∈ (housemotion_store_runTicks st 0 ticks).2, flag = false := by
  induction ticks with
  | nil => intro st flag h; simp [housemotion_store_runTicks] at h
  | cons tk rest ih =>
    intro st flag h
    obtain ⟨hs, now, ok, used⟩ := tk
    simp only [housemotion_store_runTicks] at h
    rcases List.mem_cons.mp h with h | h
    · rw [h]
      exact housemotion_store_background_maxspace_zero st hs now ok used
    · exact ih _ flag h

/-- When no argument matches `-motion-clean=`, the parsed
`HouseMotionMaxSpace` is 0. -/
theorem housemotion_store_maxspace_absent (args : List String)
    (h : ∀ a ∈ args, echttpOptionMatch "-motion-clean=" a = none) :
    housemotion_store_maxspace args = 0 := by
  have hfold : ∀ l : List String,
      (∀ a ∈ l, echttpOptionMatch "-motion-clean=" a = none) →
      ∀ acc : String,
        l.foldl (fun acc arg => (echttpOptionMatch "-motion-clean=" arg).getD acc) acc
          = acc := by
    intro l
    induction l with
    | nil => intro _ acc; rfl
    | cons a rest ih =>
      intro hl acc
      simp only [List.foldl_cons, hl a (List.mem_cons_self a rest), Option.getD_none]
      exact ih (fun x hx => hl x (List.mem_cons_of_mem a hx)) acc
  unfold housemotion_store_maxspace
  rw [hfold args h ""]
  rfl

/-- C6: when `QuotaThreshold` is 0 - the `-motion-clean` option absent
(first hypothesis alternative) or explicitly `0` - no background tick of
any sequence, from any reachable state, ever invokes
`housemotion_store_cleanup`, so no recording file is ever deleted,
regardless of the reported disk usage. -/
theorem housemotion_store_no_eviction_when_threshold_zero
    (st : BgState) (ticks : List TickInput) (args : List String)
    (h0 : (∀ a ∈ args, echttpOptionMatch "-motion-clean=" a = none) ∨
          housemotion_store_maxspace args = 0) :
    housemotion_store_maxspace args = 0 ∧
    ∀ flag ∈ (housemotion_store_runTicks st (housemotion_store_maxspace args) ticks).2,
      flag = false := by
  have hz : housemotion_store_maxspace args = 0 := by
    rcases h0 with h | h
    · exact housemotion_store_maxspace_absent args h
    · exact h
  rw [hz]
  exact ⟨rfl, housemotion_store_runTicks_maxspace_zero ticks st⟩

/-- Witness for C6 at a concrete state, tick list and argument list. -/
theorem housemotion_store_no_eviction_when_threshold_zero_witness :
    housemotion_store_maxspace ["-http-debug"] = 0 ∧
    ∀ flag ∈ (housemotion_store_runTicks ⟨0, 0⟩
        (housemotion_store_maxspace ["-http-debug"]) [(true, 100, true, 99)]).2,
      flag = false :=
  housemotion_store_no_eviction_when_threshold_zero ⟨0, 0⟩
    [(true, 100, true, 99)] ["-http-debug"] (Or.inl (by decide))

/-! ## Dot-entry handling in the catalog scan (claim C9) -/

/-- C9 counterexample: a regular file named `.hidden.mp4` - not `.` and
not `..` - is excluded from the catalog scan, while the claim says only
`.` and `..` are excluded and any other dot-named regular file is
included. -/
theorem housemotion_store_status_recurse_excludes_dotfile :
    housemotion_store_status_recurse initialStore.events 100 ""
      [FsEntry.file ".hidden.mp4" 10 5] = [] ∧
    ".hidden.mp4" ≠ "." ∧ ".hidden.mp4" ≠ ".." := by
  refine ⟨?_, by decide, by decide⟩
  simp [housemotion_store_status_recurse, startsWithDot]

/-- C9 amended: the catalog scan excludes every directory entry whose name
begins with a dot (which covers `.` and `..` but also any other dot-named
file or directory); an entry whose name does not begin with a dot is
reported when it is a regular file and recursed into when it is a
directory. -/
theorem housemotion_store_status_recurse_dot_rule
    (events : List HouseMotionEvent) (now : Int) (rel : String)
    (name : String) (mtime size : Int) (sub rest : List FsEntry) :
    (startsWithDot name = true →
      housemotion_store_status_recurse events now rel
          (FsEntry.file name mtime size :: rest) =
        housemotion_store_status_recurse events now rel rest ∧
      housemotion_store_status_recurse events now rel
          (FsEntry.dir name sub :: rest) =
        housemotion_store_status_recurse events now rel rest) ∧
    (startsWithDot name = false →
      housemotion_store_status_recurse events now rel
          (FsEntry.file name mtime size :: rest) =
        ⟨mtime, rel ++ name, size, housemotion_store_stable events now name mtime⟩ ::
          housemotion_store_status_recurse events now rel rest ∧
      housemotion_store_status_recurse events now rel
          (FsEntry.dir name sub :: rest) =
        housemotion_store_status_recurse events now (rel ++ name ++ "/") sub ++
          housemotion_store_status_recurse events now rel rest) := by
  constructor <;> intro h <;>
    exact ⟨by simp [housemotion_store_status_recurse, h],
           by simp [housemotion_store_status_recurse, h]⟩

/-- Witness for C9's amended rule on a dot-named file and a plain file. -/
theorem housemotion_store_status_recurse_dot_rule_witness :
    (housemotion_store_status_recurse [] 0 "" [FsEntry.file ".a" 1 2] =
      housemotion_store_status_recurse [] 0 "" []) ∧
    (housemotion_store_status_recurse [] 0 "" [FsEntry.file "b" 1 2] =
      ⟨1, "" ++ "b", 2, housemotion_store_stable [] 0 "b" 1⟩ ::
        housemotion_store_status_recurse [] 0 "" []) :=
  ⟨((housemotion_store_status_recurse_dot_rule [] 0 "" ".a" 1 2 [] []).1
      (by decide)).1,
   ((housemotion_store_status_recurse_dot_rule [] 0 "" "b" 1 2 [] []).2
      (by decide)).1⟩

/-! ## Scan order of the event-match heuristic (claim C2) -/

/-- C2 counterexample: record the single event `EVT42` at time 100 (the
most-recently-written slot is now slot 0).  Scanning from the
most-recently-written slot backward, as the claim states, would find
`EVT42` in slot 0 and yield 100; the code instead starts at slot 7, whose
never-written empty id is a `strstr`-substring of every name, and returns
that slot's timestamp 0. -/
theorem housemotion_store_matchevent_not_recency_order :
    matcheventClaimed (housemotion_store_event initialStore 100 "EVT42")
        "EVT42-clip" = some 100 ∧
    housemotion_store_matchevent
        (housemotion_store_event initialStore 100 "EVT42").events "EVT42-clip" = 0 ∧
    (0 : Int) ≠ 100 := by
  decide

/-- C2 amended: `housemotion_store_matchevent` scans the 8 slots in fixed
descending slot-index order 7,6,...,0 - independent of the write cursor,
so this agrees with "most-recently-written first" only when the cursor is
at 0 - and returns the `recordedAt` of the first slot whose id is a
substring of the candidate name, 0 when no slot matches; never-written
slots hold the empty id, which is a substring of every candidate. -/
theorem housemotion_store_matchevent_descending_order
    (events : List HouseMotionEvent) (name : String) :
    housemotion_store_matchevent events name =
      (matcheventDescending events name).getD 0 := by
  suffices h : ∀ l : List Nat,
      matcheventIdx events name l =
        (l.findSome? fun i =>
          if cSubstr (events.getD i default).id name then
            some (events.getD i default).timestamp
          else none).getD 0 by
    exact h _
  intro l
  induction l with
  | nil => rfl
  | cons i rest ih =>
    simp only [matcheventIdx, List.findSome?_cons]
    by_cases hc : cSubstr (events.getD i default).id name
    · simp only [if_pos hc]
      rfl
    · simp only [if_neg hc]
      exact ih

/-! ## The humanized size string (claim C8) -/

/-- `cIntCast` is the identity on values that fit in a C `int`. -/
theorem cIntCast_of_fits (x : Int) (h1 : -(2 ^ 31) ≤ x) (h2 : x < 2 ^ 31) :
    cIntCast x = x := by
  unfold cIntCast
  omega

/-- C8 counterexample: 1572864 bytes is exactly 1.5MB, so under the claim
the one decimal digit would be 5 and the output `"1.5MB"`; the code
computes the digit as `(value % 1024) / 100 = 0` and prints `"1.0MB"`. -/
theorem housemotion_store_friendly_not_fractional :
    housemotion_store_friendly 1572864 = "1.0MB" ∧
    firstFracDigit 1572864 (1024 * 1024) = 5 ∧
    ("1.0MB" : String) ≠ "1.5MB" := by
  refine ⟨by decide, by decide, by decide⟩

/-- C8 amended: the suffix breakpoints are as claimed (GB from 2^30 bytes,
MB from 2^20 bytes, KB below that), but the decimal digit is not the
first fractional digit of `value / unit`: the KB form carries no decimal
at all; the MB form's digit is `(value mod 1024) / 100` (a value between
0 and 10); and the GB form's digit is the wrapped `int` cast of
`(value mod 1024) * 1024 * 1024 / 1024 * 1024 * 100`, an artifact of C
operator precedence. -/
theorem housemotion_store_friendly_amended (v : Int) (h0 : 0 ≤ v) :
    (1024 * 1024 * 1024 ≤ v →
      housemotion_store_friendly v =
        toString (cIntCast (v / (1024 * 1024 * 1024))) ++ "." ++
          toString (cIntCast (v % 1024 * 1024 * 1024 / 1024 * 1024 * 100)) ++ "GB") ∧
    (1024 * 1024 ≤ v → v < 1024 * 1024 * 1024 →
      housemotion_store_friendly v =
        toString (v / (1024 * 1024)) ++ "." ++ toString (v % 1024 / 100) ++ "MB" ∧
      0 ≤ v % 1024 / 100 ∧ v % 1024 / 100 ≤ 10) ∧
    (v < 1024 * 1024 →
      housemotion_store_friendly v = toString (v / 1024) ++ "KB") := by
  refine ⟨fun hg => ?_, fun hm hm2 => ?_, fun hk => ?_⟩
  · rw [housemotion_store_friendly, if_pos hg]
  · have hwhole : cIntCast (v / (1024 * 1024)) = v / (1024 * 1024) :=
      cIntCast_of_fits _ (by omega) (by omega)
    have hdigit : v % 1024 * 1024 / (1024 * 100) = v % 1024 / 100 := by omega
    have hfrac : cIntCast (v % 1024 * 1024 / (1024 * 100)) =
        v % 1024 * 1024 / (1024 * 100) :=
      cIntCast_of_fits _ (by omega) (by omega)
    refine ⟨?_, by omega, by omega⟩
    rw [housemotion_store_friendly, if_neg (by omega), if_pos hm, hwhole,
      hfrac, hdigit]
  · have hwhole : cIntCast (v / 1024) = v / 1024 :=
      cIntCast_of_fits _ (by omega) (by omega)
    rw [housemotion_store_friendly, if_neg (by omega), if_neg (by omega), hwhole]

/-- Witness for C8's amended statement at 1572864 bytes (1.5MB). -/
theorem housemotion_store_friendly_amended_witness :
    housemotion_store_friendly 1572864 =
      toString ((1572864 : Int) / (1024 * 1024)) ++ "." ++
        toString ((1572864 : Int) % 1024 / 100) ++ "MB" :=
  ((housemotion_store_friendly_amended 1572864 (by decide)).2.1
    (by decide) (by decide)).1

/-! ## The event correlation ring (claim C5) -/

/-- `List.getD` after `List.set` at an in-range index yields the new
element. -/
theorem list_getD_set_self {α : Type} [Inhabited α] :
    ∀ (l : List α) (i : Nat) (x d : α), i < l.length →
      (l.set i x).getD i d = x := by
  intro l
  induction l with
  | nil => intro i x d h; simp at h
  | cons a t ih =>
    intro i x d h
    cases i with
    | zero => rfl
    | succ i => exact ih i x d (by simpa using h)

/-- `housemotion_store_matchevent` on an explicit 8-slot buffer unfolds to
the descending chain of substring tests. -/
theorem matchevent_cons_eight (e0 e1 e2 e3 e4 e5 e6 e7 : HouseMotionEvent)
    (name : String) :
    housemotion_store_matchevent [e0, e1, e2, e3, e4, e5, e6, e7] name =
      if cSubstr e7.id name then e7.timestamp
      else if cSubstr e6.id name then e6.timestamp
      else if cSubstr e5.id name then e5.timestamp
      else if cSubstr e4.id name then e4.timestamp
      else if cSubstr e3.id name then e3.timestamp
      else if cSubstr e2.id name then e2.timestamp
      else if cSubstr e1.id name then e1.timestamp
      else if cSubstr e0.id name then e0.timestamp
      else 0 := rfl

/-- C5: the event correlation buffer is a ring of capacity 8.  Every
insertion preserves the 8-slot length, writes at the cursor slot and
advances the cursor modulo 8; after 9 `record` calls from the initial
state the slots hold exactly records 2..9 (record 9 overwrote slot 0,
which held record 1, the chronologically oldest), the cursor is back at
slot 1, and `matchTime` can no longer return record 1's timestamp for any
candidate name (provided that timestamp is distinct from the others and
from the no-match value 0). -/
theorem housemotion_store_event_ring_capacity
    (t1 t2 t3 t4 t5 t6 t7 t8 t9 : Int) (n1 n2 n3 n4 n5 n6 n7 n8 n9 : String)
    (hz : t1 ≠ 0) (hd2 : t1 ≠ t2) (hd3 : t1 ≠ t3) (hd4 : t1 ≠ t4)
    (hd5 : t1 ≠ t5) (hd6 : t1 ≠ t6) (hd7 : t1 ≠ t7) (hd8 : t1 ≠ t8)
    (hd9 : t1 ≠ t9) :
    (∀ (s : StoreState) (now : Int) (id : String),
      (housemotion_store_event s now id).events.length = s.events.length ∧
      (s.cursor < s.events.length →
        (housemotion_store_event s now id).events.getD s.cursor default =
          ⟨now, truncId id⟩) ∧
      (s.cursor < 8 →
        (housemotion_store_event s now id).cursor = (s.cursor + 1) % 8)) ∧
    (recordSeq initialStore
        [(t1, n1), (t2, n2), (t3, n3), (t4, n4), (t5, n5), (t6, n6), (t7, n7),
         (t8, n8), (t9, n9)]).events =
      [⟨t9, truncId n9⟩, ⟨t2, truncId n2⟩, ⟨t3, truncId n3⟩, ⟨t4, truncId n4⟩,
       ⟨t5, truncId n5⟩, ⟨t6, truncId n6⟩, ⟨t7, truncId n7⟩, ⟨t8, truncId n8⟩] ∧
    (recordSeq initialStore
        [(t1, n1), (t2, n2), (t3, n3), (t4, n4), (t5, n5), (t6, n6), (t7, n7),
         (t8, n8), (t9, n9)]).cursor = 1 ∧
    ∀ name : String,
      housemotion_store_matchevent
        (recordSeq initialStore
          [(t1, n1), (t2, n2), (t3, n3), (t4, n4), (t5, n5), (t6, n6), (t7, n7),
           (t8, n8), (t9, n9)]).events name ≠ t1 := by
  refine ⟨?_, rfl, rfl, ?_⟩
  · intro s now id
    refine ⟨by simp [housemotion_store_event], fun hc => ?_, fun hc => ?_⟩
    · exact list_getD_set_self s.events s.cursor _ _ hc
    · simp only [housemotion_store_event]
      split_ifs <;> omega
  · intro name
    have hev : (recordSeq initialStore
        [(t1, n1), (t2, n2), (t3, n3), (t4, n4), (t5, n5), (t6, n6), (t7, n7),
         (t8, n8), (t9, n9)]).events =
      [⟨t9, truncId n9⟩, ⟨t2, truncId n2⟩, ⟨t3, truncId n3⟩, ⟨t4, truncId n4⟩,
       ⟨t5, truncId n5⟩, ⟨t6, truncId n6⟩, ⟨t7, truncId n7⟩, ⟨t8, truncId n8⟩] := rfl
    rw [hev, matchevent_cons_eight]
    dsimp only
    split_ifs <;> omega

/-- Witness for C5 at concrete times 1..9 and concrete ids. -/
theorem housemotion_store_event_ring_capacity_witness :
    housemotion_store_matchevent
      (recordSeq initialStore
        [(1, "a1"), (2, "a2"), (3, "a3"), (4, "a4"), (5, "a5"), (6, "a6"),
         (7, "a7"), (8, "a8"), (9, "a9")]).events "a1-file.mp4" ≠ 1 :=
  (housemotion_store_event_ring_capacity 1 2 3 4 5 6 7 8 9
    "a1" "a2" "a3" "a4" "a5" "a6" "a7" "a8" "a9"
    (by decide) (by decide) (by decide) (by decide) (by decide) (by decide)
    (by decide) (by decide) (by decide)).2.2.2 "a1-file.mp4"

/-! ## The change notifier (claim C7) -/

/-- One operation never decreases `HouseMotionChanged`, keeps it at or
below the operation's wall-clock time, and keeps it non-negative. -/
theorem housemotion_store_applyOp_changed_step (s : StoreState) (op : StoreOp)
    (h0 : 0 ≤ s.changed) (h1 : s.changed ≤ op.time) :
    s.changed ≤ (housemotion_store_applyOp s op).changed ∧
    (housemotion_store_applyOp s op).changed ≤ op.time ∧
    0 ≤ (housemotion_store_applyOp s op).changed := by
  cases op with
  | evt t id =>
    simp only [housemotion_store_applyOp, housemotion_store_event, StoreOp.time] at *
    omega
  | loc t d =>
    rcases hst : s.storage with _ | e
    all_goals simp [housemotion_store_applyOp, housemotion_store_location,
      StoreOp.time, hst] at *
    · omega
    · split_ifs with hsame
      · simp_all
      · simp_all
        omega
  | chk t =>
    simp only [housemotion_store_applyOp, housemotion_store_check,
      StoreOp.time] at *
    split_ifs <;> omega

/-- `HouseMotionChanged` never decreases across a time-ordered operation
sequence. -/
theorem housemotion_store_runOps_changed_mono :
    ∀ (ops : List StoreOp) (s : StoreState) (t : Int),
      0 ≤ s.changed → s.changed ≤ t → TimesOK t ops →
      s.changed ≤ (housemotion_store_runOps s ops).changed := by
  intro ops
  induction ops with
  | nil =>
    intro s t _ _ _
    simp [housemotion_store_runOps]
  | cons op rest ih =>
    intro s t h0 h1 htimes
    cases htimes with
    | cons _ _ _ hle hrest =>
      have hstep := housemotion_store_applyOp_changed_step s op h0 (le_trans h1 hle)
      exact le_trans hstep.1 (ih _ op.time hstep.2.2 hstep.2.1 hrest)

/-- C7: `HouseMotionChanged` is non-decreasing across every time-ordered
sequence of operations (event record, storage relocation, check read);
`housemotion_store_check` returns the marker scaled by 1000 after lazily
initializing it to `now` when it was never set; and a check read after a
record call yields at least the value of any check read before it. -/
theorem housemotion_store_changed_monotone :
    (∀ (s : StoreState) (t : Int) (ops : List StoreOp),
      0 ≤ s.changed → s.changed ≤ t → TimesOK t ops →
      s.changed ≤ (housemotion_store_runOps s ops).changed) ∧
    (∀ (s : StoreState) (now : Int),
      (housemotion_store_check s now).1 =
        (housemotion_store_check s now).2.changed * 1000 ∧
      (s.changed = 0 → (housemotion_store_check s now).2.changed = now) ∧
      (s.changed ≠ 0 → (housemotion_store_check s now).2.changed = s.changed)) ∧
    (∀ (s : StoreState) (t0 t1 t2 : Int) (id : String),
      0 ≤ s.changed → s.changed ≤ t0 → t0 ≤ t1 → t1 ≤ t2 →
      (housemotion_store_check s t0).1 ≤
        (housemotion_store_check
          (housemotion_store_event (housemotion_store_check s t0).2 t1 id)
          t2).1) := by
  refine ⟨fun s t ops => housemotion_store_runOps_changed_mono ops s t,
    fun s now => ?_, fun s t0 t1 t2 id h0 ha hb hc => ?_⟩
  · refine ⟨rfl, fun h => ?_, fun h => ?_⟩ <;>
      simp [housemotion_store_check, h]
  · simp [housemotion_store_check, housemotion_store_event]
    split_ifs <;> omega

/-- Witness for C7 on a concrete state and concrete times. -/
theorem housemotion_store_changed_monotone_witness :
    initialStore.changed ≤
      (housemotion_store_runOps initialStore [StoreOp.evt 5 "A"]).changed ∧
    (housemotion_store_check initialStore 3).1 ≤
      (housemotion_store_check
        (housemotion_store_event (housemotion_store_check initialStore 3).2 4 "A")
        6).1 :=
  ⟨housemotion_store_changed_monotone.1 initialStore 0 [StoreOp.evt 5 "A"]
      (by decide) (by decide)
      (TimesOK.cons 0 (StoreOp.evt 5 "A") [] (by decide) (TimesOK.nil _)),
   housemotion_store_changed_monotone.2.2 initialStore 3 4 6 "A"
      (by decide) (by decide) (by decide) (by decide)⟩

/-! ## The eviction walk (claim C4) -/

/-- Characterization of `housemotion_store_oldest`: the walk's result is
either the untouched accumulator or a visible file of the tree; its
modification time never exceeds the accumulator's; and it is a lower
bound of every visible file's modification time. -/
theorem housemotion_store_oldest_spec :
    ∀ (entries : List FsEntry) (acc : Filetrack) (parent : String),
      (housemotion_store_oldest acc parent entries = acc ∨
        ((housemotion_store_oldest acc parent entries).path,
          (housemotion_store_oldest acc parent entries).modified) ∈
            visibleFiles parent entries) ∧
      (housemotion_store_oldest acc parent entries).modified ≤ acc.modified ∧
      ∀ p m, (p, m) ∈ visibleFiles parent entries →
        (housemotion_store_oldest acc parent entries).modified ≤ m
  | [], acc, parent => by
    simp [housemotion_store_oldest, visibleFiles]
  | FsEntry.file name mtime sz :: rest, acc, parent => by
    by_cases hdot : startsWithDot name
    · simpa [housemotion_store_oldest, visibleFiles, hdot] using
        housemotion_store_oldest_spec rest acc parent
    · simp only [housemotion_store_oldest, visibleFiles, hdot, Bool.false_eq_true,
        if_false]
      by_cases hm : mtime < acc.modified
      · rw [if_pos hm]
        obtain ⟨ihm, ihle, ihmin⟩ := housemotion_store_oldest_spec rest
          ⟨mtime, parent ++ "/" ++ name⟩ parent
        have ihle' : (housemotion_store_oldest ⟨mtime, parent ++ "/" ++ name⟩
            parent rest).modified ≤ mtime := ihle
        refine ⟨?_, by omega, ?_⟩
        · rcases ihm with h | h
          · right
            rw [h]
            exact List.mem_cons_self _ _
          · right
            exact List.mem_cons_of_mem _ h
        · intro p m hpm
          rcases List.mem_cons.mp hpm with h | h
          · have hmm : m = mtime := congrArg Prod.snd h
            omega
          · exact ihmin p m h
      · rw [if_neg hm]
        obtain ⟨ihm, ihle, ihmin⟩ := housemotion_store_oldest_spec rest acc parent
        refine ⟨?_, ihle, ?_⟩
        · rcases ihm with h | h
          · exact Or.inl h
          · exact Or.inr (List.mem_cons_of_mem _ h)
        · intro p m hpm
          rcases List.mem_cons.mp hpm with h | h
          · have hmm : m = mtime := congrArg Prod.snd h
            omega
          · exact ihmin p m h
  | FsEntry.dir name sub :: rest, acc, parent => by
    by_cases hdot : startsWithDot name
    · simpa [housemotion_store_oldest, visibleFiles, hdot] using
        housemotion_store_oldest_spec rest acc parent
    · simp only [housemotion_store_oldest, visibleFiles, hdot, Bool.false_eq_true,
        if_false]
      obtain ⟨ihm1, ihle1, ihmin1⟩ :=
        housemotion_store_oldest_spec sub acc (parent ++ "/" ++ name)
      obtain ⟨ihm2, ihle2, ihmin2⟩ := housemotion_store_oldest_spec rest
        (housemotion_store_oldest acc (parent ++ "/" ++ name) sub) parent
      refine ⟨?_, le_trans ihle2 ihle1, ?_⟩
      · rcases ihm2 with h | h
        · rcases ihm1 with h1 | h1
          · exact Or.inl (h.trans h1)
          · right
            rw [h]
            exact List.mem_append_left _ h1
        · exact Or.inr (List.mem_append_right _ h)
      · intro p m hpm
        rcases List.mem_append.mp hpm with h | h
        · exact le_trans ihle2 (ihmin1 p m h)
        · exact ihmin2 p m h

/-- C4 counterexample: with `QuotaThreshold = 80` and 85% usage, the tree
holds `.old` (mtime 0, the globally oldest regular file) and `new`
(mtime 50).  The eviction walk skips every entry whose name begins with a
dot, so the tick deletes `new`, not the file with the globally minimum
modification time. -/
theorem housemotion_store_cleanup_skips_hidden_oldest :
    housemotion_store_cleanup 100 "/video"
        [FsEntry.file ".old" 0 1, FsEntry.file "new" 50 1] =
      some ("/video/new", some "/video") ∧
    ("/video/.old", 0) ∈
      allFiles "/video" [FsEntry.file ".old" 0 1, FsEntry.file "new" 50 1] ∧
    (0 : Int) < 50 := by
  have h1 : housemotion_store_oldest ⟨(160 : Int), ""⟩ "/video"
      [FsEntry.file ".old" 0 1, FsEntry.file "new" 50 1] =
        ⟨50, "/video/new"⟩ := by
    simp [housemotion_store_oldest, startsWithDot]
  have h2 : lastSlashCutStr "/video/new" = some "/video" := by
    simp [lastSlashCutStr, lastSlashCut]
  refine ⟨?_, by simp [allFiles], by decide⟩
  simp [housemotion_store_cleanup, h1, h2]

/-- C4 amended: a tick with `QuotaThreshold = 80` and 85% usage invokes
the eviction; the eviction deletes nothing when every non-hidden file is
at or after `now` (in particular when the walk, seeded with `now + 60`,
finds no file), and otherwise deletes exactly one file - one of minimum
modification time among the files reachable without passing a dot-named
entry - and attempts to remove that file's parent directory (the
`strrchr` prefix), ignoring any failure of that removal. -/
theorem housemotion_store_cleanup_oldest (now : Int) (root : String)
    (entries : List FsEntry) (h10 : 10 ≤ now) :
    (housemotion_store_metricsStep ⟨0, 0⟩ true now true 85 80).2.2 = true ∧
    ((∀ pm ∈ visibleFiles root entries, now ≤ pm.2) →
      housemotion_store_cleanup now root entries = none) ∧
    (∀ p m, (p, m) ∈ visibleFiles root entries → m < now →
      ∃ q mq, (q, mq) ∈ visibleFiles root entries ∧
        housemotion_store_cleanup now root entries =
          some (q, lastSlashCutStr q) ∧
        ∀ r mr, (r, mr) ∈ visibleFiles root entries → mq ≤ mr) := by
  obtain ⟨hmem, hle, hmin⟩ :=
    housemotion_store_oldest_spec entries ⟨now + 60, ""⟩ root
  have hseed : (⟨now + 60, ""⟩ : Filetrack).modified = now + 60 := rfl
  refine ⟨?_, fun hall => ?_, fun p m hpm hmlt => ?_⟩
  · have hng : ¬ now < (10 : Int) := by omega
    simp [housemotion_store_metricsStep, hng]
  · simp only [housemotion_store_cleanup]
    rw [if_neg]
    rcases hmem with h | h
    · have : (housemotion_store_oldest ⟨now + 60, ""⟩ root entries).modified =
          now + 60 := by rw [h]
      omega
    · have := hall _ h
      dsimp at this
      omega
  · have hlow := hmin p m hpm
    have hlt : (housemotion_store_oldest ⟨now + 60, ""⟩ root entries).modified <
        now := by omega
    rcases hmem with h | h
    · exfalso
      have : (housemotion_store_oldest ⟨now + 60, ""⟩ root entries).modified =
          now + 60 := by rw [h]
      omega
    · refine ⟨(housemotion_store_oldest ⟨now + 60, ""⟩ root entries).path,
        (housemotion_store_oldest ⟨now + 60, ""⟩ root entries).modified, h, ?_,
        fun r mr hm => hmin _ _ hm⟩
      simp only [housemotion_store_cleanup]
      rw [if_pos hlt]

/-- Witness for C4's amended statement: one visible file `a` at mtime 40,
tick time 100. -/
theorem housemotion_store_cleanup_oldest_witness :
    ∃ q mq, (q, mq) ∈ visibleFiles "/video" [FsEntry.file "a" 40 1] ∧
      housemotion_store_cleanup 100 "/video" [FsEntry.file "a" 40 1] =
        some (q, lastSlashCutStr q) ∧
      ∀ r mr, (r, mr) ∈ visibleFiles "/video" [FsEntry.file "a" 40 1] →
        mq ≤ mr :=
  (housemotion_store_cleanup_oldest 100 "/video" [FsEntry.file "a" 40 1]
      (by decide)).2.2 "/video/a" 40 (by simp [visibleFiles, startsWithDot])
    (by decide)

/-! ## Stability classification after an event (claim C1) -/

/-- C1 (evidence of the code bug): record event `EVT42` at time 95, then
scan at time 100 a tree holding `cam/EVT42-clip.mp4` with mtime 95
(equal to the event time and 5 seconds old).  The claim and the spec's
end-to-end example demand `stable = true`; the code reports
`stable = false`, because the never-written event slots hold the empty
id - which `strstr` matches against every name - so the descending scan
stops at slot 7 and returns timestamp 0, and `95 ≤ 0` fails. -/
theorem housemotion_store_scan_unstable_after_event :
    housemotion_store_status_recurse
        (housemotion_store_event initialStore 95 "EVT42").events 100 ""
        [FsEntry.dir "cam" [FsEntry.file "EVT42-clip.mp4" 95 1000]] =
      [⟨95, "cam/EVT42-clip.mp4", 1000, false⟩] ∧
    (95 : Int) = 100 - 5 ∧ (95 : Int) ≤ 95 := by
  refine ⟨?_, by decide, by decide⟩
  simp [housemotion_store_status_recurse, startsWithDot, housemotion_store_stable,
    housemotion_store_event, initialStore, housemotion_store_matchevent,
    matcheventIdx, truncId]
  decide

/-! ## Concrete evaluations of the embedded functions (smoke checks) -/
example :
    housemotion_store_status_recurse
      (housemotion_store_event initialStore 95 "EVT42").events 100 ""
      [FsEntry.dir "cam" [FsEntry.file "EVT42-clip.mp4" 95 1000]] =
    [⟨95, "cam/EVT42-clip.mp4", 1000, false⟩] := by
  simp [housemotion_store_status_recurse, startsWithDot, housemotion_store_stable,
    housemotion_store_event, initialStore, housemotion_store_matchevent,
    matcheventIdx, truncId]
  decide

example :
    matcheventClaimed (housemotion_store_event initialStore 100 "EVT42") "EVT42-clip" =
      some 100 := by decide

example :
    housemotion_store_matchevent
      (housemotion_store_event initialStore 100 "EVT42").events "EVT42-clip" = 0 := by decide

example :
    housemotion_store_background ⟨0, 0⟩ true 100 true 85 80 = (⟨100, 0⟩, true, true) := by decide
example :
    housemotion_store_background ⟨100, 0⟩ true 101 true 85 80 = (⟨101, 0⟩, true, true) := by decide

example :
    allFiles "/video" [FsEntry.file ".old" 0 1, FsEntry.file "new" 50 1] =
    [("/video/.old", 0), ("/video/new", 50)] := by
  simp [allFiles]

example : housemotion_store_friendly 1572864 = "1.0MB" := by decide
example : firstFracDigit 1572864 (1024 * 1024) = 5 := by decide

example :
    housemotion_store_status_recurse initialStore.events 100 ""
      [FsEntry.file ".hidden.mp4" 10 5] = [] := by
  simp [housemotion_store_status_recurse, startsWithDot]

example : housemotion_store_maxspace ["-motion-clean=0"] = 0 := by decide
example : housemotion_store_maxspace ["-http-debug"] = 0 := by decide
example : housemotion_store_maxspace ["-motion-clean=85"] = 85 := by decide

example : housemotion_store_status_metrics (fun _ => ⟨5, 1, 1⟩) 42 =
    ([5,6,7,8,9,10,11,12,13,14,15,16,17,18,19,20,21,22,23,24,25,26,27,28,29,0,1,2,3] : List Nat) := by decide
